import Mathlib

/-!
Verification of the file classification engine, staged compression pipeline and
token estimation of `llm-consolidate-code.py` (repository `Sellitus/li-Scripts`).

The Python code is shallowly embedded: a line of text is a `List Char` (the
result of `str.splitlines`), a file's raw content is a `List Char`, and the
stateful scanning loops of `compress_file_content` become structurally
recursive functions threading an explicit `Stats` record.  Python `defaultdict`
counters that were never touched are modelled as fields holding `0`.  The two
loops that jump their index (`i = j`) are written with an explicit fuel
argument, always called with fuel = length of the list, so that every
definition is executable by `decide`; a fuel-congruence lemma shows the fuel is
irrelevant once it is at least the list length.  Python float arithmetic (the
`0.7`/`0.3` literals of the token estimator and the `compression_ratio`
computation) is modelled by an executable round-to-nearest, ties-to-even
binary64 rounding over exact dyadic values `m·2^e`, with an unbounded exponent
range: overflow and subnormal results cannot arise from the values these two
computations produce, so every realizable intermediate value agrees bit-for-bit
with IEEE binary64.
-/

namespace LlmConsolidate

/-- Lines of text are lists of characters. -/
abbrev Line : Type := List Char

/-- Convert a string literal to the character-list representation. -/
def str (s : String) : List Char := s.toList

/-- Whitespace characters recognised by Python's `str.strip` / `\s`. -/
def isSpace (c : Char) : Bool :=
  c == ' ' || c == '\t' || c == '\n' || c == '\r' || c == '\x0b' || c == '\x0c'

/-- Python `str.lstrip()`. -/
def lstrip (l : List Char) : List Char := l.dropWhile isSpace

/-- Python `str.rstrip()`: drop the maximal run of trailing whitespace. -/
def rstrip : List Char → List Char
  | [] => []
  | c :: t => if (rstrip t).isEmpty && isSpace c then [] else c :: rstrip t

/-- Python `str.strip()`. -/
def stripL (l : List Char) : List Char := rstrip (lstrip l)

/-- Boolean list-prefix test (Python `str.startswith` for a single pattern). -/
def isPref : List Char → List Char → Bool
  | [], _ => true
  | _ :: _, [] => false
  | a :: as, b :: bs => a == b && isPref as bs

/-- Python `pattern in text` substring test. -/
def containsSub (pat : List Char) : List Char → Bool
  | [] => isPref pat []
  | c :: t => isPref pat (c :: t) || containsSub pat t

/-- Helper for `countSub`: scans left-to-right, `skip` characters still covered
by the previous match are not allowed to start a new one. -/
def countAux (pat : List Char) : List Char → Nat → Nat
  | [], _ => 0
  | c :: t, skip =>
    match skip with
    | k + 1 => countAux pat t k
    | 0 =>
      if isPref pat (c :: t) then 1 + countAux pat t (pat.length - 1)
      else countAux pat t 0

/-- Python `str.count`: number of non-overlapping occurrences, left to right. -/
def countSub (pat l : List Char) : Nat := countAux pat l 0

/-- ASCII-wise `str.upper()`. -/
def upperL (l : List Char) : List Char := l.map Char.toUpper

/-- ASCII-wise `str.lower()`. -/
def lowerL (l : List Char) : List Char := l.map Char.toLower

/-- `len(line) - len(line.lstrip())`: the indentation width used by the body
span scanners in `compress_file_content`. -/
def indentOf (l : List Char) : Nat := l.length - (lstrip l).length

/-- Decimal digits of a natural number (Python `str(n)` inside the f-string). -/
def natChars (n : Nat) : List Char := (toString n).toList

/-- Bit length of a natural number, with explicit fuel (any fuel at least the
bit length gives the same answer; callers pass `n` itself). -/
def nbitsAux : Nat → Nat → Nat
  | 0, _ => 0
  | f + 1, n => if n = 0 then 0 else nbitsAux f (n / 2) + 1

/-- Bit length of a natural number (`nbits 0 = 0`, `nbits 5 = 3`). -/
def nbits (n : Nat) : Nat := nbitsAux n n

/-- Round the positive rational `a / b` (`a, b ≥ 1`) to 53 significant bits
with round-to-nearest, ties-to-even — the rounding of IEEE binary64, with an
unbounded exponent (overflow and subnormals, which cannot arise from the
program's two float computations, are not modelled).  Returns `(m, e)` with
value `m·2^e` and `2^52 ≤ m < 2^53`. -/
def rnd53pos (a b : Nat) : ℤ × ℤ :=
  let t : ℤ := 53 + (nbits b : ℤ) - (nbits a : ℤ)
  let q0 := a * 2 ^ t.toNat / (b * 2 ^ (-t).toNat)
  let t2 : ℤ := if 2 ^ 53 ≤ q0 then t - 1 else t
  let den := b * 2 ^ (-t2).toNat
  let q := a * 2 ^ t2.toNat / den
  let r := a * 2 ^ t2.toNat % den
  let qr := if den < 2 * r then q + 1 else if 2 * r < den then q else q + q % 2
  if qr = 2 ^ 53 then ((2 ^ 52 : ℤ), 1 - t2) else ((qr : ℤ), -t2)

/-- Signed wrapper of `rnd53pos`: round `a / b` (`b ≥ 1`) to binary64. -/
def rnd53 (a : ℤ) (b : Nat) : ℤ × ℤ :=
  if a = 0 then (0, 0)
  else if 0 < a then rnd53pos a.toNat b
  else
    let p := rnd53pos (-a).toNat b
    (-p.1, p.2)

/-- Round the exact dyadic value `m·2^e` to binary64. -/
def dyadRnd (m : ℤ) (e : ℤ) : ℤ × ℤ :=
  if 0 ≤ e then rnd53 (m * 2 ^ e.toNat) 1 else rnd53 m (2 ^ (-e).toNat)

/-- IEEE binary64 multiplication of exactly-held doubles: round the exact
product. -/
def fmul (x y : ℤ × ℤ) : ℤ × ℤ := dyadRnd (x.1 * y.1) (x.2 + y.2)

/-- IEEE binary64 addition: round the exact sum. -/
def fadd (x y : ℤ × ℤ) : ℤ × ℤ :=
  let e := min x.2 y.2
  dyadRnd (x.1 * 2 ^ (x.2 - e).toNat + y.1 * 2 ^ (y.2 - e).toNat) e

/-- IEEE binary64 subtraction: round the exact difference. -/
def fsub (x y : ℤ × ℤ) : ℤ × ℤ := fadd x (-y.1, y.2)

/-- Conversion of a Python `int` to a double (exact below `2^53`, rounded
beyond). -/
def fofNat (n : Nat) : ℤ × ℤ := rnd53 (n : ℤ) 1

/-- Python float true division of naturals (`a / b`), correctly rounded. -/
def fdivNat (a b : Nat) : ℤ × ℤ := if b = 0 then (0, 0) else rnd53 (a : ℤ) b

/-- Python `int(v)` for the non-negative doubles arising here: truncation,
which is the floor. -/
def fint (x : ℤ × ℤ) : Nat :=
  if 0 ≤ x.2 then x.1.toNat * 2 ^ x.2.toNat else x.1.toNat / 2 ^ (-x.2).toNat

/-- The exact rational value of a held double. -/
def toRatF (x : ℤ × ℤ) : ℚ :=
  if 0 ≤ x.2 then (x.1 : ℚ) * 2 ^ x.2.toNat else (x.1 : ℚ) / 2 ^ (-x.2).toNat

/-- The double nearest the literal `0.7`. -/
def float07 : ℤ × ℤ := fdivNat 7 10

/-- The double nearest the literal `0.3`. -/
def float03 : ℤ × ℤ := fdivNat 3 10

/-- `compression_ratio` as the program computes it:
`(1 - final_lines / original_lines) * 100` in IEEE binary64 arithmetic
(0 when `original_lines = 0`), held as an exact rational. -/
def ratioF64 (orig fin : Nat) : ℚ :=
  if 0 < orig then toRatF (fmul (fsub (fofNat 1) (fdivNat fin orig)) (fofNat 100))
  else 0

/-- The per-file compression counters of `compress_file_content` plus the final
totals.  Absent `defaultdict` keys are modelled as `0`. -/
structure Stats where
  original_lines : Nat := 0
  empty_lines_removed : Nat := 0
  comments_removed : Nat := 0
  debug_statements_removed : Nat := 0
  function_lines_compressed : Nat := 0
  test_functions_removed : Nat := 0
  docstrings_removed : Nat := 0
  type_hints_removed : Nat := 0
  all_comments_removed : Nat := 0
  final_lines : Nat := 0
  lines_removed : Nat := 0
  compression_ratio : ℚ := 0
deriving DecidableEq

/-- Level 1 of `compress_file_content`: strip trailing whitespace, collapse
runs of blank lines keeping one, counting the dropped ones.  The first
argument mirrors the Python `consecutive_empty` counter. -/
def level1Go : Nat → List Line → Stats → List Line × Stats
  | _, [], s => ([], s)
  | ce, l :: t, s =>
    let l2 := rstrip l
    if l2.isEmpty then
      if ce == 0 then
        let p := level1Go (ce + 1) t s
        (([] : Line) :: p.1, p.2)
      else
        level1Go (ce + 1) t
          { s with empty_lines_removed := s.empty_lines_removed + 1 }
    else
      let p := level1Go 0 t s
      (l2 :: p.1, p.2)

/-- Level 1 entry point (`consecutive_empty = 0`). -/
def level1Run (ls : List Line) (s : Stats) : List Line × Stats := level1Go 0 ls s

/-- `stripped.startswith(('#', '//', '/*'))` from the level-2 comment rule. -/
def commentLead (stripped : List Char) : Bool :=
  isPref ['#'] stripped || isPref ['/', '/'] stripped || isPref ['/', '*'] stripped

/-- Keywords that protect a comment line at level 2. -/
def keepKws : List (List Char) :=
  [str "TODO", str "FIXME", str "HACK", str "BUG", str "NOTE", str "IMPORTANT"]

/-- `any(kw in stripped.upper() for kw in [...])` from the level-2 comment rule. -/
def importantKw (stripped : List Char) : Bool :=
  keepKws.any (fun kw => containsSub kw (upperL stripped))

/-- Does an opening parenthesis follow after optional whitespace
(the `\s*\(` tail of the debug-statement regex)? -/
def openParenAfterWs (r : List Char) : Bool :=
  match r.dropWhile isSpace with
  | c :: _ => c == '('
  | [] => false

/-- Call names of the debug-statement regex
`^[\s]*(print|console\.(log|debug|info)|println|printf|puts)\s*\(`. -/
def dbgNames : List (List Char) :=
  [['p', 'r', 'i', 'n', 't'],
   ['c', 'o', 'n', 's', 'o', 'l', 'e', '.', 'l', 'o', 'g'],
   ['c', 'o', 'n', 's', 'o', 'l', 'e', '.', 'd', 'e', 'b', 'u', 'g'],
   ['c', 'o', 'n', 's', 'o', 'l', 'e', '.', 'i', 'n', 'f', 'o'],
   ['p', 'r', 'i', 'n', 't', 'l', 'n'],
   ['p', 'r', 'i', 'n', 't', 'f'],
   ['p', 'u', 't', 's']]

/-- `re.match(r'^[\s]*(print|console\.(log|debug|info)|println|printf|puts)\s*\(', line)`.
Every alternative is a literal, so the regex matches iff some alternative is a
prefix of the de-indented line and is followed by `\s*` and `(`. -/
def debugMatch (l : List Char) : Bool :=
  dbgNames.any (fun nm =>
    isPref nm (lstrip l) && openParenAfterWs ((lstrip l).drop nm.length))

/-- Keywords of the function-definition regex at level 2. -/
def defKws : List (List Char) :=
  [['d', 'e', 'f'],
   ['f', 'u', 'n', 'c', 't', 'i', 'o', 'n'],
   ['f', 'u', 'n', 'c'],
   ['f', 'n'],
   ['s', 'u', 'b'],
   ['m', 'e', 't', 'h', 'o', 'd']]

/-- Does `\s+\w` follow: at least one whitespace character, then a word
character after the whitespace run? -/
def wsThenWordChar (r : List Char) : Bool :=
  match r with
  | c :: _ =>
    isSpace c &&
      (match r.dropWhile isSpace with
       | d :: _ => d.isAlphanum || d == '_'
       | [] => false)
  | [] => false

/-- `re.match(r'^[\s]*(def|function|func|fn|sub|method)\s+\w+', line)`. -/
def defMatch (l : List Char) : Bool :=
  defKws.any (fun kw =>
    isPref kw (lstrip l) && wsThenWordChar ((lstrip l).drop kw.length))

/-- The body-span scanner shared by levels 2 and 3: collect lines while the
line is blank or indented more than `ind` (`while j < len(lines) and
(not lines[j].strip() or indent(lines[j]) > indent)`), returning the span
and the remainder. -/
def spanBody (ind : Nat) : List Line → List Line × List Line
  | [] => ([], [])
  | l :: t =>
    if !(stripL l).isEmpty && indentOf l ≤ ind then ([], l :: t)
    else
      let p := spanBody ind t
      (l :: p.1, p.2)

/-- The level-2 summary line
`f"{' ' * (indent + 4)}# ... {body_lines} lines ..."`. -/
def summaryLine (ind n : Nat) : Line :=
  List.replicate (ind + 4) ' ' ++ str "# ... " ++ natChars n ++ str " lines ..."

/-- Level 2 of `compress_file_content`: drop standalone comments (except those
holding an important keyword), drop debug prints, and compress function bodies
longer than 10 lines to a single summary line.  `fuel` bounds the number of
loop iterations; each iteration consumes at least one line, so fuel = input
length suffices. -/
def level2Go : Nat → List Line → Stats → List Line × Stats
  | 0, ls, s => (ls, s)
  | _ + 1, [], s => ([], s)
  | fuel + 1, l :: t, s =>
    if commentLead (stripL l) && !importantKw (stripL l) then
      level2Go fuel t { s with comments_removed := s.comments_removed + 1 }
    else if debugMatch l then
      level2Go fuel t
        { s with debug_statements_removed := s.debug_statements_removed + 1 }
    else if defMatch l then
      let ind := indentOf l
      let b := (spanBody ind t).1
      let r := (spanBody ind t).2
      if 10 < b.length then
        let p := level2Go fuel r
          { s with function_lines_compressed :=
              s.function_lines_compressed + (b.length - 1) }
        (l :: summaryLine ind b.length :: p.1, p.2)
      else
        let p := level2Go fuel r s
        (l :: (b ++ p.1), p.2)
    else
      let p := level2Go fuel t s
      (l :: p.1, p.2)

/-- Level 2 entry point. -/
def level2Run (ls : List Line) (s : Stats) : List Line × Stats :=
  level2Go ls.length ls s

/-- Keywords of the test-function regex at level 3 (note: `fn`, `sub`,
`method` are absent here). -/
def testKws : List (List Char) := [str "def", str "function", str "func"]

/-- The `(test_|_test|test[A-Z])` alternative of the test-function regex. -/
def testNameLead (r : List Char) : Bool :=
  isPref (str "test_") r || isPref (str "_test") r ||
    (isPref (str "test") r &&
      (match r.drop 4 with
       | c :: _ => c.isUpper
       | [] => false))

/-- `re.match(r'^[\s]*(def|function|func)\s*(test_|_test|test[A-Z])', line)`;
the `\s*` lets the test name follow the keyword with no separator. -/
def testDefMatch (l : List Char) : Bool :=
  testKws.any (fun kw =>
    isPref kw (lstrip l) && testNameLead (((lstrip l).drop kw.length).dropWhile isSpace))

/-- Triple double-quote marker. -/
def tripleD : List Char := str "\"\"\""

/-- Triple single-quote marker. -/
def tripleS : List Char := ['\'', '\'', '\'']

/-- One application of `re.sub(r'\s*->\s*[^:]+:', ':', line)` at the current
position: `Option` of the remainder after a match starting here.  After `->`,
the `\s*` and `[^:]+` parts together absorb any non-empty run of non-colon
characters (whitespace also matches `[^:]`, so with backtracking a
whitespace-only gap before the colon still satisfies the pattern), and the
colon must follow. -/
def tryArrow (l : List Char) : Option (List Char) :=
  let l1 := l.dropWhile isSpace
  if isPref (str "->") l1 then
    let l2 := l1.drop 2
    let m := l2.takeWhile (fun c => !(c == ':'))
    let l3 := l2.dropWhile (fun c => !(c == ':'))
    if !m.isEmpty then
      match l3 with
      | _ :: rest => some rest
      | [] => none
    else none
  else none

/-- Scanner of `re.sub(r'\s*->\s*[^:]+:', ':', line)`: replace every
non-overlapping match by `':'`, continuing after each match.  `fuel` bounds the
scan; each match consumes at least one character. -/
def arrowSubGo : Nat → List Char → List Char
  | 0, l => l
  | _ + 1, [] => []
  | fuel + 1, c :: t =>
    match tryArrow (c :: t) with
    | some rest => ':' :: arrowSubGo fuel rest
    | none => c :: arrowSubGo fuel t

/-- The level-3 return-type-hint substitution. -/
def arrowSub (l : List Char) : List Char := arrowSubGo l.length l

/-- Level 3 of `compress_file_content`: skip whole test functions, drop
docstring marker lines (the `in_docstring`/`docstring_char` state is threaded
exactly as in the source; as in the source, the closing-marker test runs on
the opening line itself), and strip return-type hints.  The `none` branch of
the closing check is unreachable from `level3Run` (Python would raise there). -/
def level3Go : Nat → Bool → Option (List Char) → List Line → Stats → List Line × Stats
  | 0, _, _, ls, s => (ls, s)
  | _ + 1, _, _, [], s => ([], s)
  | fuel + 1, inDoc, dChar, l :: t, s =>
    if testDefMatch l then
      let ind := indentOf l
      let b := (spanBody ind t).1
      let r := (spanBody ind t).2
      level3Go fuel inDoc dChar r
        { s with test_functions_removed := s.test_functions_removed + (b.length + 1) }
    else
      if !inDoc && (isPref tripleD (stripL l) || isPref tripleS (stripL l)) then
        let m := if containsSub tripleD (stripL l) then tripleD else tripleS
        if countSub m (stripL l) == 2 then
          level3Go fuel inDoc (some m) t
            { s with docstrings_removed := s.docstrings_removed + 1 }
        else
          level3Go fuel (!containsSub m l) (some m) t
            { s with docstrings_removed := s.docstrings_removed + 1 }
      else if inDoc then
        let inDoc2 :=
          match dChar with
          | some m => !containsSub m l
          | none => inDoc
        level3Go fuel inDoc2 dChar t
          { s with docstrings_removed := s.docstrings_removed + 1 }
      else
        if containsSub (str "def ") l && containsSub (str "->") l then
          let p := level3Go fuel inDoc dChar t
            { s with type_hints_removed := s.type_hints_removed + 1 }
          (arrowSub l :: p.1, p.2)
        else
          let p := level3Go fuel inDoc dChar t s
          (l :: p.1, p.2)

/-- Level 3 entry point (`in_docstring = False`, `docstring_char = None`). -/
def level3Run (ls : List Line) (s : Stats) : List Line × Stats :=
  level3Go ls.length false none ls s

/-- `line.split(pat)[0]`: the prefix before the first occurrence of `pat`. -/
def takeUntilSub (pat : List Char) : List Char → List Char
  | [] => []
  | c :: t => if isPref pat (c :: t) then [] else c :: takeUntilSub pat t

/-- Operator class of the level-4 whitespace minifier (`[=+\-*/]`). -/
def isOpChar (c : Char) : Bool :=
  c == '=' || c == '+' || c == '-' || c == '*' || c == '/'

/-- Does the whitespace run continuing through `t` end at an operator
character?  Decides whether a whitespace character belongs to a run the
pattern `\s*([=+\-*/])\s*` absorbs from the left. -/
def wsRunOp (t : List Char) : Bool :=
  match t.dropWhile isSpace with
  | d :: _ => isOpChar d
  | [] => false

/-- Scanner of `re.sub(r'\s*([=+\-*/])\s*', r'\1', line)`: a whitespace run is
removed exactly when it is adjacent to an operator character; `afterOp` records
whether the previous non-removed character was an operator. -/
def minifyGo : Bool → List Char → List Char
  | _, [] => []
  | afterOp, c :: t =>
    if isOpChar c then c :: minifyGo true t
    else if isSpace c then
      if afterOp then minifyGo true t
      else if wsRunOp t then minifyGo false t
      else c :: minifyGo false t
    else c :: minifyGo false t

/-- The level-4 operator-whitespace minifier. -/
def minify (l : List Char) : List Char := minifyGo false l

/-- Level 4 of `compress_file_content`: truncate every line at its first `#`
or `//` marker (dropping the line when nothing remains, without counting it),
and minify whitespace around operators on the remaining lines. -/
def level4Go : List Line → Stats → List Line × Stats
  | [], s => ([], s)
  | l :: t, s =>
    if containsSub ['#'] l then
      let cp := rstrip (takeUntilSub ['#'] l)
      if cp.isEmpty then level4Go t s
      else
        let p := level4Go t
          { s with all_comments_removed := s.all_comments_removed + 1 }
        (cp :: p.1, p.2)
    else if containsSub ['/', '/'] l then
      let cp := rstrip (takeUntilSub ['/', '/'] l)
      if cp.isEmpty then level4Go t s
      else
        let p := level4Go t
          { s with all_comments_removed := s.all_comments_removed + 1 }
        (cp :: p.1, p.2)
    else
      let p := level4Go t s
      (minify l :: p.1, p.2)

/-- Level 4 entry point. -/
def level4Run (ls : List Line) (s : Stats) : List Line × Stats := level4Go ls s

/-- One conditional stage of `compress_file_content` (`if level >= 1:`). -/
def stage1 (level : Nat) (p : List Line × Stats) : List Line × Stats :=
  if 1 ≤ level then level1Run p.1 p.2 else p

/-- One conditional stage of `compress_file_content` (`if level >= 2:`). -/
def stage2 (level : Nat) (p : List Line × Stats) : List Line × Stats :=
  if 2 ≤ level then level2Run p.1 p.2 else p

/-- One conditional stage of `compress_file_content` (`if level >= 3:`). -/
def stage3 (level : Nat) (p : List Line × Stats) : List Line × Stats :=
  if 3 ≤ level then level3Run p.1 p.2 else p

/-- One conditional stage of `compress_file_content` (`if level >= 4:`). -/
def stage4 (level : Nat) (p : List Line × Stats) : List Line × Stats :=
  if 4 ≤ level then level4Run p.1 p.2 else p

/-- The closing assignments of `compress_file_content`: `final_lines`,
`lines_removed` and `compression_ratio` (computed in the binary64 model). -/
def finalizeStats (orig : Nat) (p : List Line × Stats) : List Line × Stats :=
  (p.1,
    { p.2 with
      final_lines := p.1.length,
      lines_removed := orig - p.1.length,
      compression_ratio := ratioF64 orig p.1.length })

/-- `compress_file_content(filepath, content, level)` with the content given
as its `splitlines` image; the `filepath` parameter is unused in the source
and omitted.  Level 0 returns the input with only `original_lines` set;
otherwise the four stages run cumulatively and the totals are finalized. -/
def compress_file_content (level : Nat) (lines : List Line) : List Line × Stats :=
  if level = 0 then (lines, { original_lines := lines.length })
  else
    finalizeStats lines.length
      (stage4 level (stage3 level (stage2 level
        (stage1 level (lines, { original_lines := lines.length })))))

/-- All suffixes of a list, longest first (used by the `*` case of
`globMatch`). -/
def tailsOf : List Char → List (List Char)
  | [] => [[]]
  | c :: t => (c :: t) :: tailsOf t

/-- Glob matcher for the `fnmatch` patterns used by the classifier.  The
patterns of the source use only literal characters, `?` and `*`; the match is
anchored at both ends as `fnmatch` is. -/
def globMatch : List Char → List Char → Bool
  | [], s => s.isEmpty
  | c :: pt, s =>
    if c == '*' then (tailsOf s).any (fun suf => globMatch pt suf)
    else
      match s with
      | [] => false
      | d :: st => (c == '?' || c == d) && globMatch pt st

/-- `os.path.splitext` extension scanner over one path component: the suffix
from the last `'.'` that has some earlier character, with leading dots of the
component never starting an extension. -/
def splitextAux (seenChar : Bool) (best : List Char) : List Char → List Char
  | [] => best
  | c :: t =>
    if c == '.' then splitextAux seenChar (if seenChar then c :: t else best) t
    else splitextAux true best t

/-- The final path component (`os.path.basename` for the extension rule). -/
def lastSegment (p : List Char) : List Char :=
  (p.reverse.takeWhile (fun c => !(c == '/'))).reverse

/-- The extension part of `os.path.splitext`, including the dot. -/
def extOf (p : List Char) : List Char := splitextAux false [] (lastSegment p)

/-- Split a path on `os.sep` (modelled as `'/'`), keeping empty segments as
Python `str.split` does. -/
def splitPath : List Char → List (List Char) :=
  go []
where
  go (cur : List Char) : List Char → List (List Char)
    | [] => [cur.reverse]
    | c :: t => if c == '/' then cur.reverse :: go [] t else go (c :: cur) t

/-- `FileClassifier.exclude_dirs`. -/
def exclude_dirs : List (List Char) :=
  [str ".git", str ".svn", str ".hg", str ".bzr",
   str "node_modules", str "bower_components", str "jspm_packages",
   str "vendor", str "packages", str "libs", str "third_party",
   str "__pycache__", str ".pytest_cache", str ".mypy_cache", str ".tox",
   str "venv", str "env", str ".env", str "virtualenv", str ".venv", str ".virtualenvs",
   str "site-packages", str "dist-packages",
   str "build", str "dist", str "out", str "output", str "target", str "bin", str "obj",
   str "_build", str ".build", str "cmake-build-debug", str "cmake-build-release",
   str ".idea", str ".vscode", str ".vs", str ".eclipse", str ".settings",
   str "coverage", str "htmlcov", str ".coverage",
   str "tmp", str "temp", str ".tmp", str ".temp", str "cache", str ".cache",
   str "_site", str "site", str ".docusaurus", str "docs/_build"]

/-- `FileClassifier.exclude_patterns`. -/
def exclude_patterns : List (List Char) :=
  [str "*.lock", str "package-lock.json", str "yarn.lock", str "pnpm-lock.yaml",
   str "poetry.lock", str "Pipfile.lock", str "composer.lock", str "Gemfile.lock",
   str "Cargo.lock", str "packages.lock.json", str "bun.lockb",
   str "*.pyc", str "*.pyo", str "*.pyd", str "*.so", str "*.dylib", str "*.dll",
   str "*.class", str "*.jar", str "*.war", str "*.o", str "*.obj", str "*.exe", str "*.app",
   str "*.cache", str "*.log", str "*.tmp", str "*.temp", str "*.swp", str "*.swo",
   str "*.db", str "*.sqlite", str "*.sqlite3", str "*.csv", str "*.dat",
   str "*.jpg", str "*.jpeg", str "*.png", str "*.gif", str "*.ico", str "*.svg",
   str "*.mp3", str "*.mp4", str "*.avi", str "*.mov", str "*.pdf", str "*.doc", str "*.docx",
   str "*.zip", str "*.tar", str "*.gz", str "*.bz2", str "*.7z", str "*.rar",
   str "*.min.js", str "*.min.css", str "*.map",
   str ".DS_Store", str "Thumbs.db", str "desktop.ini"]

/-- `FileClassifier.source_code_extensions`. -/
def source_code_extensions : List (List Char) :=
  [str ".py", str ".js", str ".jsx", str ".ts", str ".tsx", str ".java", str ".cpp",
   str ".hpp", str ".c", str ".h", str ".cc", str ".cxx", str ".cs", str ".rb",
   str ".go", str ".php", str ".swift", str ".kt", str ".kts", str ".rs", str ".scala",
   str ".pl", str ".pm", str ".dart", str ".lua", str ".r", str ".R", str ".m",
   str ".mm", str ".f90", str ".f95", str ".jl", str ".nim", str ".v", str ".zig",
   str ".ex", str ".exs", str ".clj", str ".cljs", str ".elm", str ".hs", str ".ml",
   str ".fs", str ".vb", str ".pas", str ".d", str ".cr", str ".groovy",
   str ".html", str ".htm", str ".css", str ".scss", str ".sass", str ".less",
   str ".vue", str ".svelte",
   str ".sh", str ".bash", str ".zsh", str ".fish", str ".ps1", str ".bat", str ".cmd",
   str ".sql", str ".graphql", str ".proto"]

/-- The substrings marking a test file in `should_include_file`. -/
def testFilePats : List (List Char) :=
  [str "test_", str "_test.", str ".test.", str ".spec.", str "_spec."]

/-- The exact config-file allow list checked against the unlowered filename. -/
def configNames : List (List Char) :=
  [str "requirements.txt", str "package.json", str "Dockerfile",
   str "docker-compose.yml", str "Makefile", str "setup.py", str "pyproject.toml"]

/-- The lowercased readme allow list. -/
def readmeNames : List (List Char) :=
  [str "readme.md", str "readme.rst", str "readme.txt"]

/-- The root dotfile allow list. -/
def dotfileNames : List (List Char) :=
  [str ".gitignore", str ".dockerignore", str ".editorconfig"]

/-- `FileClassifier.should_include_file(filepath, filename)`, returning
`(should_include, category)`.  Evaluation order mirrors the source: excluded
directory segment, excluded filename glob, source extension (with the test
refinement), exact config name, readme, root dotfile, otherwise excluded. -/
def should_include_file (filepath filename : List Char) : Bool × String :=
  if (splitPath filepath).any
      (fun part => decide (lowerL part ∈ exclude_dirs.map lowerL)) then
    (false, "excluded")
  else if exclude_patterns.any
      (fun pat => globMatch (lowerL pat) (lowerL filename)) then
    (false, "excluded")
  else if decide (extOf (lowerL filename) ∈ source_code_extensions) then
    if testFilePats.any (fun pat => containsSub pat (lowerL filename)) then
      (true, "test")
    else (true, "source")
  else if decide (filename ∈ configNames) then (true, "config")
  else if decide (lowerL filename ∈ readmeNames) then (true, "doc")
  else if isPref (str ".") filename && !containsSub (str "/") filepath &&
      decide (filename ∈ dotfileNames) then
    (true, "config")
  else (false, "excluded")

/-- A character matched by `\w` (with the source's inputs being ASCII). -/
def wordChar (c : Char) : Bool := c.isAlphanum || c == '_'

/-- Count the maximal runs of characters satisfying `p` (the number of
`findall` matches for `p+`-shaped patterns). -/
def countRunsGo (p : Char → Bool) : Bool → List Char → Nat
  | _, [] => 0
  | inRun, c :: t =>
    if p c then
      if inRun then countRunsGo p true t else 1 + countRunsGo p true t
    else countRunsGo p false t

/-- `len(re.findall(r'\b\w+\b', text))`: the number of maximal word-character
runs. -/
def countWords (text : List Char) : Nat := countRunsGo wordChar false text

/-- `len(re.findall(r'[^\w\s]', text))`: characters that are neither word nor
whitespace characters. -/
def countSpecial (text : List Char) : Nat :=
  (text.filter (fun c => !wordChar c && !isSpace c)).length

/-- `len(re.findall(r'\s+', text))`: the number of maximal whitespace runs. -/
def countWsRuns (text : List Char) : Nat := countRunsGo isSpace false text

/-- `estimate_tokens` on the tiktoken-unavailable path:
`max(1, int(words + special_chars * 0.7 + whitespace * 0.3))`, evaluated
left-to-right in IEEE binary64 arithmetic via the rounding model (so, e.g.,
`int(1 + 3*0.7 + 3*0.3)` is 3, not 4). -/
def estimate_tokens (text : List Char) : Nat :=
  max 1 (fint (fadd (fadd (fofNat (countWords text))
    (fmul (fofNat (countSpecial text)) float07))
    (fmul (fofNat (countWsRuns text)) float03)))

/-- Punctuation for the spec's padding step: not alphanumeric, not whitespace,
and not the (normalized) contraction apostrophe. -/
def isPadPunct (c : Char) : Bool :=
  !c.isAlphanum && !isSpace c && !(c == '\'')

/-- Split on whitespace discarding empty tokens. -/
def splitWsGo (cur : List Char) : List Char → List (List Char)
  | [] => if cur.isEmpty then [] else [cur.reverse]
  | c :: t =>
    if isSpace c then
      if cur.isEmpty then splitWsGo [] t else cur.reverse :: splitWsGo [] t
    else splitWsGo (c :: cur) t

/-- Does the token contain two adjacent uppercase letters (an uppercase run of
length at least 2)? -/
def upperRun2 : List Char → Bool
  | a :: b :: t => (a.isUpper && b.isUpper) || upperRun2 (b :: t)
  | _ => false

/-- Modelled from the spec: the per-token scoring of §4.4's Improved strategy
(pure digits → 1; single punctuation → 1; alphanumeric-bearing tokens scored by
length and uppercase runs; pure symbol runs → their length). -/
def specTokScore (tok : List Char) : Nat :=
  if !tok.isEmpty && tok.all Char.isDigit then 1
  else if tok.length = 1 && tok.any isPadPunct then 1
  else if tok.any Char.isAlphanum then
    if upperRun2 tok then tok.length / 2 + 1
    else if tok.length ≤ 4 then 1
    else max 1 (tok.length / 4 + 1)
  else tok.length

/-- Modelled from the spec: §4.4's Improved estimation procedure, which is not
present in `src/llm-consolidate-code.py` — pad punctuation with surrounding
spaces, normalize contraction apostrophes, split on whitespace and sum the
per-token scores. -/
def specImprovedEstimate (text : List Char) : Nat :=
  let norm := text.map (fun c => if c == '’' then '\'' else c)
  let padded := (norm.map (fun c =>
    if isPadPunct c then [' ', c, ' '] else [c])).flatten
  ((splitWsGo [] padded).map specTokScore).sum

/-- The line-break characters of Python `str.splitlines` that can reach the
processing loop: `'\r'` and `'\r\n'` never occur because the text-mode reader
(`open(..., 'r')`) already translated them to `'\n'`. -/
def isLineBreak (c : Char) : Bool :=
  c == '\n' || c == '\x0b' || c == '\x0c' || c == '\x1c' || c == '\x1d' ||
    c == '\x1e' || c == '\x85' || c == '\u2028' || c == '\u2029'

/-- Python `str.splitlines` on newline-translated text: no trailing empty line
is produced. -/
def splitlinesGo (cur : List Char) : List Char → List (List Char)
  | [] => if cur.isEmpty then [] else [cur.reverse]
  | c :: t =>
    if isLineBreak c then cur.reverse :: splitlinesGo [] t
    else splitlinesGo (c :: cur) t

/-- `content.splitlines()`. -/
def splitlines (content : List Char) : List (List Char) := splitlinesGo [] content

/-- `'\n'.join(lines)`. -/
def joinLines (ls : List (List Char)) : List Char :=
  List.intercalate ['\n'] ls

/-- Field-wise sum of two `Stats` records, modelling the
`stats['compression'][key] += value` fold of `process_repository` (which sums
every key of the per-file dict, the ratio included). -/
def Stats.add (a b : Stats) : Stats where
  original_lines := a.original_lines + b.original_lines
  empty_lines_removed := a.empty_lines_removed + b.empty_lines_removed
  comments_removed := a.comments_removed + b.comments_removed
  debug_statements_removed := a.debug_statements_removed + b.debug_statements_removed
  function_lines_compressed := a.function_lines_compressed + b.function_lines_compressed
  test_functions_removed := a.test_functions_removed + b.test_functions_removed
  docstrings_removed := a.docstrings_removed + b.docstrings_removed
  type_hints_removed := a.type_hints_removed + b.type_hints_removed
  all_comments_removed := a.all_comments_removed + b.all_comments_removed
  final_lines := a.final_lines + b.final_lines
  lines_removed := a.lines_removed + b.lines_removed
  compression_ratio := a.compression_ratio + b.compression_ratio

/-- The language tag registered by the extension chain of
`process_repository` (lines 574–595), if any. -/
def detectLang (extLower : List Char) : Option String :=
  if decide (extLower ∈ [str ".py", str ".pyw"]) then some "Python"
  else if decide (extLower ∈ [str ".js", str ".jsx", str ".mjs"]) then some "JavaScript"
  else if decide (extLower ∈ [str ".ts", str ".tsx"]) then some "TypeScript"
  else if decide (extLower ∈ [str ".java"]) then some "Java"
  else if decide (extLower ∈ [str ".go"]) then some "Go"
  else if decide (extLower ∈ [str ".rs"]) then some "Rust"
  else if decide (extLower ∈ [str ".cpp", str ".cc", str ".cxx", str ".hpp", str ".h"]) then
    some "C/C++"
  else if decide (extLower ∈ [str ".cs"]) then some "C#"
  else if decide (extLower ∈ [str ".rb"]) then some "Ruby"
  else if decide (extLower ∈ [str ".php"]) then some "PHP"
  else none

/-- The run-level totals accumulated by the processing loop of
`process_repository` that the claims observe; `languages` keeps the sequence
of tags whose tallies the source counts. -/
structure RunStats where
  total_files : Nat := 0
  total_lines : Nat := 0
  compressed_size : Nat := 0
  languages : List String := []
  compression : Stats := {}
deriving DecidableEq

/-- One queued file of the processing loop: path, classifier category, and the
decoded content. -/
structure QueuedFile where
  path : List Char
  category : String
  content : List Char
deriving DecidableEq

/-- The per-file processing loop of `process_repository` (lines 559–609):
whitespace-only content is skipped before any counter moves; otherwise the
totals and the language tag are recorded, the content is compressed when the
level is positive and the category is `"source"`, and the (path, content) pair
is appended in order.  Reads never fail in the model. -/
def processFiles (lvl : Nat) : List QueuedFile → RunStats →
    List (List Char × List Char) × RunStats
  | [], st => ([], st)
  | f :: rest, st =>
    if (stripL f.content).isEmpty then processFiles lvl rest st
    else
      let ls := splitlines f.content
      let st1 : RunStats :=
        { st with
          total_files := st.total_files + 1,
          total_lines := st.total_lines + ls.length,
          languages := st.languages ++
            (match detectLang (lowerL (extOf f.path)) with
             | some tag => [tag]
             | none => []) }
      let newContent :=
        if 0 < lvl && f.category == "source" then
          joinLines (compress_file_content lvl ls).1
        else f.content
      let st2 : RunStats :=
        { st1 with
          compression :=
            if 0 < lvl && f.category == "source" then
              Stats.add st1.compression (compress_file_content lvl ls).2
            else st1.compression,
          compressed_size := st1.compressed_size + newContent.length }
      let p := processFiles lvl rest st2
      ((f.path, newContent) :: p.1, p.2)

/-- The outcome decided by `main` right after `process_repository` (lines
1016–1018): an empty processed list is the fatal "No relevant files found"
exit, otherwise the run proceeds to write the document. -/
inductive RunOutcome where
  | fatal : RunOutcome
  | ok : RunOutcome
deriving DecidableEq

/-- `if not processed_files: sys.exit(1)`. -/
def runOutcome (processed : List (List Char × List Char)) : RunOutcome :=
  if processed.isEmpty then RunOutcome.fatal else RunOutcome.ok

/-- A list whose prefix test against `c :: cs` succeeds starts with `c`. -/
theorem isPref_head {c : Char} {cs l : List Char} (h : isPref (c :: cs) l = true) :
    ∃ t, l = c :: t := by
  cases l with
  | nil => simp [isPref] at h
  | cons d t =>
    refine ⟨t, ?_⟩
    simp only [isPref, Bool.and_eq_true, beq_iff_eq] at h
    rw [h.1]

/-- `rstrip` keeps a non-whitespace head. -/
theorem rstrip_cons_not_space {c : Char} (t : List Char) (hc : isSpace c = false) :
    rstrip (c :: t) = c :: rstrip t := by
  simp [rstrip, hc]

/-- Characters of `rstrip l` come from `l`. -/
theorem mem_rstrip {x : Char} : ∀ {l : List Char}, x ∈ rstrip l → x ∈ l := by
  intro l
  induction l with
  | nil => simp [rstrip]
  | cons c t ih =>
    intro h
    rw [rstrip] at h
    by_cases hsplit : (rstrip t).isEmpty && isSpace c
    · simp [hsplit] at h
    · simp only [hsplit, if_false, Bool.false_eq_true, List.mem_cons] at h
      rcases h with h | h
      · exact h ▸ List.mem_cons_self c t
      · exact List.mem_cons_of_mem c (ih h)

/-- The span and the remainder of `spanBody` partition the input. -/
theorem spanBody_append (ind : Nat) :
    ∀ ls : List Line, (spanBody ind ls).1 ++ (spanBody ind ls).2 = ls := by
  intro ls
  induction ls with
  | nil => simp [spanBody]
  | cons l t ih =>
    rw [spanBody]
    by_cases hsplit : !(stripL l).isEmpty && indentOf l ≤ ind
    · simp [hsplit]
    · simp [hsplit, ih]

/-- Length bookkeeping for `spanBody`. -/
theorem spanBody_length (ind : Nat) (ls : List Line) :
    (spanBody ind ls).1.length + (spanBody ind ls).2.length = ls.length := by
  have h := congrArg List.length (spanBody_append ind ls)
  simpa using h

/-- The remainder of a span is no longer than the input. -/
theorem spanBody_r_length (ind : Nat) (ls : List Line) :
    (spanBody ind ls).2.length ≤ ls.length := by
  have h := spanBody_length ind ls
  omega

/-- Every line inside a body span is blank or indented beyond the definition. -/
theorem spanBody_mem (ind : Nat) :
    ∀ ls : List Line, ∀ x ∈ (spanBody ind ls).1,
      (stripL x).isEmpty = true ∨ ind < indentOf x := by
  intro ls
  induction ls with
  | nil => simp [spanBody]
  | cons l t ih =>
    intro x hx
    rw [spanBody] at hx
    by_cases hsplit : !(stripL l).isEmpty && indentOf l ≤ ind
    · simp [hsplit] at hx
    · simp only [hsplit, if_false, Bool.false_eq_true, List.mem_cons] at hx
      rcases hx with hx | hx
      · subst hx
        rcases Bool.and_eq_false_iff.mp (Bool.eq_false_iff.mpr hsplit) with h | h
        · left
          simpa using h
        · right
          have := of_decide_eq_false h
          omega
      · exact ih x hx

/-- Level 1 never grows the line count. -/
theorem level1Go_length : ∀ (ce : Nat) (ls : List Line) (s : Stats),
    (level1Go ce ls s).1.length ≤ ls.length := by
  intro ce ls
  induction ls generalizing ce with
  | nil => intro s; simp [level1Go]
  | cons l t ih =>
    intro s
    rw [level1Go]
    by_cases h1 : (rstrip l).isEmpty = true
    · rw [if_pos h1]
      by_cases h2 : (ce == 0) = true
      · rw [if_pos h2]
        simpa using ih (ce + 1) s
      · rw [if_neg h2]
        exact Nat.le_succ_of_le (ih (ce + 1) _)
    · rw [if_neg h1]
      simpa using ih 0 s

theorem level2Go_length : ∀ (fuel : Nat) (ls : List Line) (s : Stats),
    (level2Go fuel ls s).1.length ≤ ls.length := by
  intro fuel
  induction fuel with
  | zero => intro ls s; cases ls <;> simp [level2Go]
  | succ fuel ih =>
    intro ls s
    cases ls with
    | nil => simp [level2Go]
    | cons l t =>
      rw [level2Go]
      by_cases h1 : (commentLead (stripL l) && !importantKw (stripL l)) = true
      · rw [if_pos h1]
        exact Nat.le_succ_of_le (ih t _)
      · rw [if_neg h1]
        by_cases h2 : debugMatch l = true
        · rw [if_pos h2]
          exact Nat.le_succ_of_le (ih t _)
        · rw [if_neg h2]
          by_cases h3 : defMatch l = true
          · rw [if_pos h3]
            simp only []
            have hsplit := spanBody_length (indentOf l) t
            by_cases h4 : 10 < (spanBody (indentOf l) t).1.length
            · rw [if_pos h4]
              have hr := ih (spanBody (indentOf l) t).2
                { s with function_lines_compressed :=
                    s.function_lines_compressed + ((spanBody (indentOf l) t).1.length - 1) }
              simp only [List.length_cons]
              omega
            · rw [if_neg h4]
              have hr := ih (spanBody (indentOf l) t).2 s
              simp only [List.length_cons, List.length_append]
              omega
          · rw [if_neg h3]
            simp only [List.length_cons]
            exact Nat.succ_le_succ (ih t s)

theorem level3Go_length : ∀ (fuel : Nat) (inDoc : Bool) (dChar : Option (List Char))
    (ls : List Line) (s : Stats),
    (level3Go fuel inDoc dChar ls s).1.length ≤ ls.length := by
  intro fuel
  induction fuel with
  | zero => intro inDoc dChar ls s; cases ls <;> simp [level3Go]
  | succ fuel ih =>
    intro inDoc dChar ls s
    cases ls with
    | nil => simp [level3Go]
    | cons l t =>
      rw [level3Go.eq_def]
      simp only []
      by_cases h1 : testDefMatch l = true
      · rw [if_pos h1]
        have hsplit := spanBody_length (indentOf l) t
        have hr := ih inDoc dChar (spanBody (indentOf l) t).2
          { s with test_functions_removed :=
              s.test_functions_removed + ((spanBody (indentOf l) t).1.length + 1) }
        simp only [List.length_cons]
        omega
      · rw [if_neg h1]
        by_cases h2 : (!inDoc && (isPref tripleD (stripL l) || isPref tripleS (stripL l))) = true
        · rw [if_pos h2]
          by_cases h3 : (countSub (if containsSub tripleD (stripL l) then tripleD else tripleS)
              (stripL l) == 2) = true
          · rw [if_pos h3]
            exact Nat.le_succ_of_le (ih _ _ t _)
          · rw [if_neg h3]
            exact Nat.le_succ_of_le (ih _ _ t _)
        · rw [if_neg h2]
          by_cases h4 : inDoc = true
          · rw [if_pos h4]
            exact Nat.le_succ_of_le (ih _ _ t _)
          · rw [if_neg h4]
            by_cases h5 : (containsSub (str "def ") l && containsSub (str "->") l) = true
            · rw [if_pos h5]
              simp only [List.length_cons]
              exact Nat.succ_le_succ (ih _ _ t _)
            · rw [if_neg h5]
              simp only [List.length_cons]
              exact Nat.succ_le_succ (ih _ _ t _)

theorem level4Go_length : ∀ (ls : List Line) (s : Stats),
    (level4Go ls s).1.length ≤ ls.length := by
  intro ls
  induction ls with
  | nil => intro s; simp [level4Go]
  | cons l t ih =>
    intro s
    rw [level4Go]
    by_cases h1 : containsSub ['#'] l = true
    · rw [if_pos h1]
      by_cases h2 : (rstrip (takeUntilSub ['#'] l)).isEmpty = true
      · rw [if_pos h2]
        exact Nat.le_succ_of_le (ih s)
      · rw [if_neg h2]
        simp only [List.length_cons]
        exact Nat.succ_le_succ (ih _)
    · rw [if_neg h1]
      by_cases h3 : containsSub ['/', '/'] l = true
      · rw [if_pos h3]
        by_cases h4 : (rstrip (takeUntilSub ['/', '/'] l)).isEmpty = true
        · rw [if_pos h4]
          exact Nat.le_succ_of_le (ih s)
        · rw [if_neg h4]
          simp only [List.length_cons]
          exact Nat.succ_le_succ (ih _)
      · rw [if_neg h3]
        simp only [List.length_cons]
        exact Nat.succ_le_succ (ih s)

/-- Level 1 does not touch `original_lines`. -/
theorem level1Go_orig : ∀ (ce : Nat) (ls : List Line) (s : Stats),
    (level1Go ce ls s).2.original_lines = s.original_lines := by
  intro ce ls
  induction ls generalizing ce with
  | nil => intro s; simp [level1Go]
  | cons l t ih =>
    intro s
    rw [level1Go]
    by_cases h1 : (rstrip l).isEmpty = true
    · rw [if_pos h1]
      by_cases h2 : (ce == 0) = true
      · rw [if_pos h2]
        simpa using ih (ce + 1) s
      · rw [if_neg h2]
        simpa using ih (ce + 1) _
    · rw [if_neg h1]
      simpa using ih 0 s

/-- Level 2 does not touch `original_lines` (for any fuel). -/
theorem level2Go_orig : ∀ (fuel : Nat) (ls : List Line) (s : Stats),
    (level2Go fuel ls s).2.original_lines = s.original_lines := by
  intro fuel
  induction fuel with
  | zero => intro ls s; cases ls <;> simp [level2Go]
  | succ fuel ih =>
    intro ls s
    cases ls with
    | nil => simp [level2Go]
    | cons l t =>
      rw [level2Go]
      by_cases h1 : (commentLead (stripL l) && !importantKw (stripL l)) = true
      · rw [if_pos h1]
        simpa using ih t _
      · rw [if_neg h1]
        by_cases h2 : debugMatch l = true
        · rw [if_pos h2]
          simpa using ih t _
        · rw [if_neg h2]
          by_cases h3 : defMatch l = true
          · rw [if_pos h3]
            simp only []
            by_cases h4 : 10 < (spanBody (indentOf l) t).1.length
            · rw [if_pos h4]
              simpa using ih (spanBody (indentOf l) t).2 _
            · rw [if_neg h4]
              simpa using ih (spanBody (indentOf l) t).2 s
          · rw [if_neg h3]
            simpa using ih t s

/-- Level 3 does not touch `original_lines` (for any fuel and state). -/
theorem level3Go_orig : ∀ (fuel : Nat) (inDoc : Bool) (dChar : Option (List Char))
    (ls : List Line) (s : Stats),
    (level3Go fuel inDoc dChar ls s).2.original_lines = s.original_lines := by
  intro fuel
  induction fuel with
  | zero => intro inDoc dChar ls s; cases ls <;> simp [level3Go]
  | succ fuel ih =>
    intro inDoc dChar ls s
    cases ls with
    | nil => simp [level3Go]
    | cons l t =>
      rw [level3Go.eq_def]
      simp only []
      by_cases h1 : testDefMatch l = true
      · rw [if_pos h1]
        simpa using ih inDoc dChar (spanBody (indentOf l) t).2 _
      · rw [if_neg h1]
        by_cases h2 : (!inDoc && (isPref tripleD (stripL l) || isPref tripleS (stripL l))) = true
        · rw [if_pos h2]
          by_cases h3 : (countSub (if containsSub tripleD (stripL l) then tripleD else tripleS)
              (stripL l) == 2) = true
          · rw [if_pos h3]
            simpa using ih _ _ t _
          · rw [if_neg h3]
            simpa using ih _ _ t _
        · rw [if_neg h2]
          by_cases h4 : inDoc = true
          · rw [if_pos h4]
            simpa using ih _ _ t _
          · rw [if_neg h4]
            by_cases h5 : (containsSub (str "def ") l && containsSub (str "->") l) = true
            · rw [if_pos h5]
              simpa using ih _ _ t _
            · rw [if_neg h5]
              simpa using ih _ _ t s

/-- Level 4 does not touch `original_lines`. -/
theorem level4Go_orig : ∀ (ls : List Line) (s : Stats),
    (level4Go ls s).2.original_lines = s.original_lines := by
  intro ls
  induction ls with
  | nil => intro s; simp [level4Go]
  | cons l t ih =>
    intro s
    rw [level4Go]
    by_cases h1 : containsSub ['#'] l = true
    · rw [if_pos h1]
      by_cases h2 : (rstrip (takeUntilSub ['#'] l)).isEmpty = true
      · rw [if_pos h2]
        exact ih s
      · rw [if_neg h2]
        simpa using ih _
    · rw [if_neg h1]
      by_cases h3 : containsSub ['/', '/'] l = true
      · rw [if_pos h3]
        by_cases h4 : (rstrip (takeUntilSub ['/', '/'] l)).isEmpty = true
        · rw [if_pos h4]
          exact ih s
        · rw [if_neg h4]
          simpa using ih _
      · rw [if_neg h3]
        simpa using ih s

/-- The fuel of `level2Go` is irrelevant once it covers the input length. -/
theorem level2Go_fuel : ∀ (f1 f2 : Nat) (ls : List Line) (s : Stats),
    ls.length ≤ f1 → ls.length ≤ f2 → level2Go f1 ls s = level2Go f2 ls s := by
  intro f1
  induction f1 with
  | zero =>
    intro f2 ls s h1 h2
    have hls : ls = [] := List.eq_nil_of_length_eq_zero (Nat.le_zero.mp h1)
    subst hls
    cases f2 <;> simp [level2Go]
  | succ f ih =>
    intro f2 ls s h1 h2
    cases ls with
    | nil => cases f2 <;> simp [level2Go]
    | cons l t =>
      cases f2 with
      | zero => simp at h2
      | succ f2 =>
        rw [level2Go, level2Go]
        have ht1 : t.length ≤ f := by simpa using h1
        have ht2 : t.length ≤ f2 := by simpa using h2
        by_cases c1 : (commentLead (stripL l) && !importantKw (stripL l)) = true
        · rw [if_pos c1, if_pos c1]
          exact ih f2 t _ ht1 ht2
        · rw [if_neg c1, if_neg c1]
          by_cases c2 : debugMatch l = true
          · rw [if_pos c2, if_pos c2]
            exact ih f2 t _ ht1 ht2
          · rw [if_neg c2, if_neg c2]
            by_cases c3 : defMatch l = true
            · rw [if_pos c3, if_pos c3]
              simp only []
              have hr1 : (spanBody (indentOf l) t).2.length ≤ f :=
                le_trans (spanBody_r_length _ _) ht1
              have hr2 : (spanBody (indentOf l) t).2.length ≤ f2 :=
                le_trans (spanBody_r_length _ _) ht2
              by_cases c4 : 10 < (spanBody (indentOf l) t).1.length
              · rw [if_pos c4, if_pos c4]
                rw [ih f2 (spanBody (indentOf l) t).2 _ hr1 hr2]
              · rw [if_neg c4, if_neg c4]
                rw [ih f2 (spanBody (indentOf l) t).2 s hr1 hr2]
            · rw [if_neg c3, if_neg c3]
              rw [ih f2 t s ht1 ht2]

/-- Unfolding of `compress_file_content` at a positive level. -/
theorem compress_pos_spec (k : Nat) (lines : List Line) (hk : ¬ k = 0) :
    compress_file_content k lines =
      finalizeStats lines.length
        (stage4 k (stage3 k (stage2 k
          (stage1 k (lines, { original_lines := lines.length }))))) := by
  simp [compress_file_content, hk]

/-- Level 0 branch of `compress_file_content`. -/
theorem compress_zero_spec (lines : List Line) :
    compress_file_content 0 lines = (lines, { original_lines := lines.length }) := rfl

/-- Stage 1 never grows the line count. -/
theorem stage1_length (k : Nat) (p : List Line × Stats) :
    (stage1 k p).1.length ≤ p.1.length := by
  unfold stage1
  split
  · exact level1Go_length 0 p.1 p.2
  · exact le_refl _

/-- Stage 2 never grows the line count. -/
theorem stage2_length (k : Nat) (p : List Line × Stats) :
    (stage2 k p).1.length ≤ p.1.length := by
  unfold stage2
  split
  · exact level2Go_length p.1.length p.1 p.2
  · exact le_refl _

/-- Stage 3 never grows the line count. -/
theorem stage3_length (k : Nat) (p : List Line × Stats) :
    (stage3 k p).1.length ≤ p.1.length := by
  unfold stage3
  split
  · exact level3Go_length p.1.length false none p.1 p.2
  · exact le_refl _

/-- Stage 4 never grows the line count. -/
theorem stage4_length (k : Nat) (p : List Line × Stats) :
    (stage4 k p).1.length ≤ p.1.length := by
  unfold stage4
  split
  · exact level4Go_length p.1 p.2
  · exact le_refl _

/-- Stage 1 preserves `original_lines`. -/
theorem stage1_orig (k : Nat) (p : List Line × Stats) :
    (stage1 k p).2.original_lines = p.2.original_lines := by
  unfold stage1
  split
  · exact level1Go_orig 0 p.1 p.2
  · rfl

/-- Stage 2 preserves `original_lines`. -/
theorem stage2_orig (k : Nat) (p : List Line × Stats) :
    (stage2 k p).2.original_lines = p.2.original_lines := by
  unfold stage2
  split
  · exact level2Go_orig p.1.length p.1 p.2
  · rfl

/-- Stage 3 preserves `original_lines`. -/
theorem stage3_orig (k : Nat) (p : List Line × Stats) :
    (stage3 k p).2.original_lines = p.2.original_lines := by
  unfold stage3
  split
  · exact level3Go_orig p.1.length false none p.1 p.2
  · rfl

/-- Stage 4 preserves `original_lines`. -/
theorem stage4_orig (k : Nat) (p : List Line × Stats) :
    (stage4 k p).2.original_lines = p.2.original_lines := by
  unfold stage4
  split
  · exact level4Go_orig p.1 p.2
  · rfl

/-- The pipeline in front of `finalizeStats` never grows the line count. -/
theorem pipeline_length (k : Nat) (lines : List Line) :
    (stage4 k (stage3 k (stage2 k
      (stage1 k (lines, ({ original_lines := lines.length } : Stats)))))).1.length ≤
      lines.length :=
  le_trans (stage4_length k _)
    (le_trans (stage3_length k _) (le_trans (stage2_length k _) (stage1_length k _)))

/-- `original_lines` of any compression run is the input line count. -/
theorem compress_orig (k : Nat) (lines : List Line) :
    (compress_file_content k lines).2.original_lines = lines.length := by
  by_cases hk : k = 0
  · subst hk
    rw [compress_zero_spec]
  · rw [compress_pos_spec k lines hk]
    show (stage4 k (stage3 k (stage2 k (stage1 k _)))).2.original_lines = lines.length
    rw [stage4_orig, stage3_orig, stage2_orig, stage1_orig]

/-- `final_lines` of any positive-level compression run is the output length. -/
theorem compress_final (k : Nat) (lines : List Line) (hk : ¬ k = 0) :
    (compress_file_content k lines).2.final_lines =
      (compress_file_content k lines).1.length := by
  rw [compress_pos_spec k lines hk]
  rfl

/-- All levels from 4 up run the same four stages. -/
theorem compress_ge4 (k : Nat) (lines : List Line) (hk : 4 ≤ k) :
    compress_file_content k lines = compress_file_content 4 lines := by
  have h0 : ¬ k = 0 := by omega
  have h1 : 1 ≤ k := by omega
  have h2 : 2 ≤ k := by omega
  have h3 : 3 ≤ k := by omega
  rw [compress_pos_spec k lines h0, compress_pos_spec 4 lines (by omega)]
  simp [stage1, stage2, stage3, stage4, h1, h2, h3, hk]

/-- Fixture for C1: a documentation block opened on one line and closed two
lines later. -/
def c1input : List Line := [str "'''", str "This is a doc", str "'''"]

/-- Fixture for C5's witness. -/
def c5lines : List Line := [str "a", str "", str "", str "b"]

/-- Fixture for C7's witness: 20 lines of which level 1 removes 6. -/
def c7lines : List Line :=
  [str "a1", str "a2", str "a3", str "a4", str "a5", str "a6", str "a7",
   str "a8", str "a9", str "a10", str "a11", str "a12", str "a13",
   [], [], [], [], [], [], []]

/-- C8: compression at level 0 returns the line sequence unchanged and reports
`original_lines` equal to the number of input lines. -/
theorem c8_level0_identity (lines : List Line) :
    (compress_file_content 0 lines).1 = lines ∧
      (compress_file_content 0 lines).2.original_lines = lines.length := by
  rw [compress_zero_spec]
  exact ⟨rfl, rfl⟩

/-- C1: evaluation of the code at the failing input.  For the 3-line
documentation block `'''` / `This is a doc` / `'''`, level-3 compression keeps
the interior line and increments `docstrings_removed` only by 2 (the two
marker lines): the `in_docstring` flag set on the opening line is reset by the
closing-marker test on that same line, contradicting the claimed removal of
every line of the block with counter 3. -/
theorem c1_docstring_partial :
    (compress_file_content 3 c1input).1 = [str "This is a doc"] ∧
      (compress_file_content 3 c1input).2.docstrings_removed = 2 ∧
      (compress_file_content 3 [str "'''doc'''", str "x = 1"]).1 = [str "x = 1"] ∧
      (compress_file_content 3 [str "'''doc'''", str "x = 1"]).2.docstrings_removed = 1 := by
  refine ⟨?_, ?_, ?_, ?_⟩ <;> decide

/-- C5: at every level `k ≥ 1` the output of compression has no more lines
than the output at level `k−1`, and the reported `final_lines` never exceeds
`original_lines`. -/
theorem c5_monotone (k : Nat) (lines : List Line) (hk : 1 ≤ k) :
    (compress_file_content k lines).1.length ≤
        (compress_file_content (k - 1) lines).1.length ∧
      (compress_file_content k lines).2.final_lines ≤
        (compress_file_content k lines).2.original_lines := by
  have hfinal : ∀ m : Nat, 1 ≤ m →
      (compress_file_content m lines).2.final_lines ≤
        (compress_file_content m lines).2.original_lines := by
    intro m hm
    rw [compress_final m lines (by omega), compress_orig]
    rw [compress_pos_spec m lines (by omega)]
    show (stage4 m (stage3 m (stage2 m (stage1 m _)))).1.length ≤ lines.length
    exact pipeline_length m lines
  refine ⟨?_, hfinal k hk⟩
  by_cases h5 : 5 ≤ k
  · have e1 : compress_file_content k lines = compress_file_content 4 lines :=
      compress_ge4 k lines (by omega)
    have e2 : compress_file_content (k - 1) lines = compress_file_content 4 lines :=
      compress_ge4 (k - 1) lines (by omega)
    rw [e1, e2]
  · have hk4 : k ≤ 4 := by omega
    interval_cases k
    · rw [compress_pos_spec 1 lines (by omega), compress_zero_spec]
      exact pipeline_length 1 lines
    · rw [compress_pos_spec 2 lines (by omega), compress_pos_spec 1 lines (by omega)]
      simp only [stage1, stage2, stage3, stage4, finalizeStats]
      norm_num
      exact le_trans (level2Go_length _ _ _) (le_refl _)
    · rw [compress_pos_spec 3 lines (by omega), compress_pos_spec 2 lines (by omega)]
      simp only [stage1, stage2, stage3, stage4, finalizeStats]
      norm_num
      exact le_trans (level3Go_length _ _ _ _ _) (le_refl _)
    · rw [compress_pos_spec 4 lines (by omega), compress_pos_spec 3 lines (by omega)]
      simp only [stage1, stage2, stage3, stage4, finalizeStats]
      norm_num
      exact le_trans (level4Go_length _ _) (le_refl _)

/-- Witness for C5 at level 2 on a concrete fixture. -/
theorem c5_monotone_witness :
    (compress_file_content 2 c5lines).1.length ≤
        (compress_file_content 1 c5lines).1.length ∧
      (compress_file_content 2 c5lines).2.final_lines ≤
        (compress_file_content 2 c5lines).2.original_lines :=
  c5_monotone 2 c5lines (by decide)

/-- The standalone TODO line of the spec's fixture. -/
def todoLine : Line := str "# TODO: fix this"

/-- Level 1 keeps any line that is its own `rstrip` and non-empty. -/
theorem level1Go_mem (l : Line) (hr : rstrip l = l) (hne : ¬ l = []) :
    ∀ (ce : Nat) (ls : List Line) (s : Stats), l ∈ ls → l ∈ (level1Go ce ls s).1 := by
  intro ce ls
  induction ls generalizing ce with
  | nil => intro s h; simp at h
  | cons x t ih =>
    intro s h
    rw [level1Go]
    rcases List.mem_cons.mp h with heq | hmem
    · subst heq
      have h1 : ¬ (rstrip l).isEmpty = true := by
        rw [hr]
        simpa using hne
      rw [if_neg h1, hr]
      exact List.mem_cons_self l _
    · by_cases h1 : (rstrip x).isEmpty = true
      · rw [if_pos h1]
        by_cases h2 : (ce == 0) = true
        · rw [if_pos h2]
          exact List.mem_cons_of_mem _ (ih (ce + 1) s hmem)
        · rw [if_neg h2]
          exact ih (ce + 1) _ hmem
      · rw [if_neg h1]
        exact List.mem_cons_of_mem _ (ih 0 s hmem)

/-- A non-blank line of zero indentation never lies inside a body span. -/
theorem spanBody_not_mem (l : Line) (hs : ¬ (stripL l).isEmpty = true)
    (hi : indentOf l = 0) (ind : Nat) (ls : List Line) :
    l ∉ (spanBody ind ls).1 := by
  intro hmem
  rcases spanBody_mem ind ls l hmem with h | h
  · exact hs h
  · omega

/-- Level 2 keeps a line that survives its comment, debug and definition
tests, is non-blank and sits at indentation 0 (so that no body span can
swallow it). -/
theorem level2Go_mem (l : Line)
    (h1 : (commentLead (stripL l) && !importantKw (stripL l)) = false)
    (h2 : debugMatch l = false) (h3 : defMatch l = false)
    (h4 : ¬ (stripL l).isEmpty = true) (h5 : indentOf l = 0) :
    ∀ (fuel : Nat) (ls : List Line) (s : Stats),
      ls.length ≤ fuel → l ∈ ls → l ∈ (level2Go fuel ls s).1 := by
  intro fuel
  induction fuel with
  | zero =>
    intro ls s hlen h
    cases ls with
    | nil => simp at h
    | cons x t => simp at hlen
  | succ fuel ih =>
    intro ls s hlen h
    cases ls with
    | nil => simp at h
    | cons x t =>
      have ht : t.length ≤ fuel := by simpa using hlen
      rw [level2Go]
      rcases List.mem_cons.mp h with heq | hmem
      · subst heq
        rw [if_neg (by simp [h1]), if_neg (by simp [h2]), if_neg (by simp [h3])]
        exact List.mem_cons_self l _
      · by_cases c1 : (commentLead (stripL x) && !importantKw (stripL x)) = true
        · rw [if_pos c1]
          exact ih t _ ht hmem
        · rw [if_neg c1]
          by_cases c2 : debugMatch x = true
          · rw [if_pos c2]
            exact ih t _ ht hmem
          · rw [if_neg c2]
            by_cases c3 : defMatch x = true
            · rw [if_pos c3]
              simp only []
              have hsplit := spanBody_append (indentOf x) t
              have hmem2 : l ∈ (spanBody (indentOf x) t).1 ++ (spanBody (indentOf x) t).2 := by
                rw [hsplit]; exact hmem
              have hr : l ∈ (spanBody (indentOf x) t).2 := by
                rcases List.mem_append.mp hmem2 with hb | hr
                · exact absurd hb (spanBody_not_mem l h4 h5 (indentOf x) t)
                · exact hr
              have hrlen : (spanBody (indentOf x) t).2.length ≤ fuel :=
                le_trans (spanBody_r_length _ _) ht
              by_cases c4 : 10 < (spanBody (indentOf x) t).1.length
              · rw [if_pos c4]
                exact List.mem_cons_of_mem _ (List.mem_cons_of_mem _ (ih _ _ hrlen hr))
              · rw [if_neg c4]
                exact List.mem_cons_of_mem _ (List.mem_append_right _ (ih _ _ hrlen hr))
            · rw [if_neg c3]
              exact List.mem_cons_of_mem _ (ih t s ht hmem)

/-- Single-character substring tests are membership. -/
theorem containsSub_single (a : Char) : ∀ l : List Char,
    containsSub [a] l = true ↔ a ∈ l := by
  intro l
  induction l with
  | nil =>
    rw [containsSub]
    simp [isPref]
  | cons c t ih =>
    rw [containsSub]
    simp [isPref, ih, List.mem_cons]

/-- `takeUntilSub` yields characters of the input. -/
theorem mem_takeUntilSub (pat : List Char) (x : Char) : ∀ l : List Char,
    x ∈ takeUntilSub pat l → x ∈ l := by
  intro l
  induction l with
  | nil => simp [takeUntilSub]
  | cons c t ih =>
    rw [takeUntilSub]
    by_cases h : isPref pat (c :: t) = true
    · rw [if_pos h]
      intro hx
      simp at hx
    · rw [if_neg h]
      intro hx
      rcases List.mem_cons.mp hx with heq | hmem
      · exact heq ▸ List.mem_cons_self c t
      · exact List.mem_cons_of_mem _ (ih hmem)

/-- The prefix before the first occurrence of a character lacks it. -/
theorem takeUntil_single_not_mem (a : Char) : ∀ l : List Char,
    a ∉ takeUntilSub [a] l := by
  intro l
  induction l with
  | nil => simp [takeUntilSub]
  | cons c t ih =>
    rw [takeUntilSub]
    by_cases h : isPref [a] (c :: t) = true
    · rw [if_pos h]
      simp
    · rw [if_neg h]
      intro hx
      have hca : ¬ a = c := by
        intro hac
        exact h (by simp [isPref, hac])
      rcases List.mem_cons.mp hx with heq | hmem
      · exact hca heq
      · exact ih hmem

/-- The minifier only emits characters of its input. -/
theorem mem_minifyGo (x : Char) : ∀ (l : List Char) (b : Bool),
    x ∈ minifyGo b l → x ∈ l := by
  intro l
  induction l with
  | nil => intro b h; simp [minifyGo] at h
  | cons c t ih =>
    intro b h
    rw [minifyGo] at h
    by_cases h1 : isOpChar c = true
    · rw [if_pos h1] at h
      rcases List.mem_cons.mp h with heq | hmem
      · exact heq ▸ List.mem_cons_self c t
      · exact List.mem_cons_of_mem _ (ih true hmem)
    · rw [if_neg h1] at h
      by_cases h2 : isSpace c = true
      · rw [if_pos h2] at h
        by_cases h3 : b = true
        · rw [if_pos h3] at h
          exact List.mem_cons_of_mem _ (ih true h)
        · rw [if_neg h3] at h
          by_cases h4 : wsRunOp t = true
          · rw [if_pos h4] at h
            exact List.mem_cons_of_mem _ (ih false h)
          · rw [if_neg h4] at h
            rcases List.mem_cons.mp h with heq | hmem
            · exact heq ▸ List.mem_cons_self c t
            · exact List.mem_cons_of_mem _ (ih false hmem)
      · rw [if_neg h2] at h
        rcases List.mem_cons.mp h with heq | hmem
        · exact heq ▸ List.mem_cons_self c t
        · exact List.mem_cons_of_mem _ (ih false hmem)

/-- No line of the level-4 output contains a `#` character: lines holding one
are truncated before it, and the minifier invents no characters. -/
theorem level4Go_no_hash : ∀ (ls : List Line) (s : Stats) (x : Line),
    x ∈ (level4Go ls s).1 → '#' ∉ x := by
  intro ls
  induction ls with
  | nil => intro s x h; simp [level4Go] at h
  | cons l t ih =>
    intro s x h
    rw [level4Go] at h
    by_cases h1 : containsSub ['#'] l = true
    · rw [if_pos h1] at h
      by_cases h2 : (rstrip (takeUntilSub ['#'] l)).isEmpty = true
      · rw [if_pos h2] at h
        exact ih s x h
      · rw [if_neg h2] at h
        rcases List.mem_cons.mp h with heq | hmem
        · subst heq
          intro hx
          exact takeUntil_single_not_mem '#' l (mem_rstrip hx)
        · exact ih _ x hmem
    · rw [if_neg h1] at h
      have hnol : '#' ∉ l := fun hx => h1 ((containsSub_single '#' l).mpr hx)
      by_cases h3 : containsSub ['/', '/'] l = true
      · rw [if_pos h3] at h
        by_cases h4 : (rstrip (takeUntilSub ['/', '/'] l)).isEmpty = true
        · rw [if_pos h4] at h
          exact ih s x h
        · rw [if_neg h4] at h
          rcases List.mem_cons.mp h with heq | hmem
          · subst heq
            intro hx
            exact hnol (mem_takeUntilSub _ _ _ (mem_rstrip hx))
          · exact ih _ x hmem
      · rw [if_neg h3] at h
        rcases List.mem_cons.mp h with heq | hmem
        · subst heq
          intro hx
          exact hnol (mem_minifyGo '#' l false hx)
        · exact ih s x hmem

/-- C6: any input containing the standalone line `"# TODO: fix this"` keeps
that line in the level-2 output (the TODO keyword protects it from the comment
rule, and its zero indentation keeps it outside every compressed body span)
and loses it in the level-4 output (where no emitted line contains `#`). -/
theorem c6_todo_marker (lines : List Line) (h : todoLine ∈ lines) :
    todoLine ∈ (compress_file_content 2 lines).1 ∧
      todoLine ∉ (compress_file_content 4 lines).1 := by
  constructor
  · rw [compress_pos_spec 2 lines (by omega)]
    show todoLine ∈ (stage4 2 (stage3 2 (stage2 2 (stage1 2 _)))).1
    rw [stage4, if_neg (by omega), stage3, if_neg (by omega), stage2, if_pos (by omega),
      stage1, if_pos (by omega)]
    exact level2Go_mem todoLine (by decide) (by decide) (by decide) (by decide) (by decide)
      _ _ _ (le_refl _) (level1Go_mem todoLine (by decide) (by decide) 0 lines _ h)
  · rw [compress_pos_spec 4 lines (by omega)]
    show todoLine ∉ (stage4 4 (stage3 4 (stage2 4 (stage1 4 _)))).1
    rw [stage4, if_pos (by omega)]
    intro hmem
    exact level4Go_no_hash _ _ _ hmem (by decide)

/-- Witness for C6 on a concrete fixture around the TODO line. -/
theorem c6_todo_marker_witness :
    todoLine ∈ (compress_file_content 2 [str "x = 1", todoLine, str "y = 2"]).1 ∧
      todoLine ∉ (compress_file_content 4 [str "x = 1", todoLine, str "y = 2"]).1 :=
  c6_todo_marker [str "x = 1", todoLine, str "y = 2"] (by decide)

/-- A line matching the definition regex starts (after indentation) with
`d`, `f`, `s` or `m`. -/
theorem defMatch_head (l : Line) (h : defMatch l = true) :
    ∃ c t, lstrip l = c :: t ∧ (c = 'd' ∨ c = 'f' ∨ c = 's' ∨ c = 'm') := by
  unfold defMatch at h
  rw [List.any_eq_true] at h
  obtain ⟨kw, hkw, hp⟩ := h
  rw [Bool.and_eq_true] at hp
  simp only [defKws, List.mem_cons, List.not_mem_nil, or_false] at hkw
  rcases hkw with rfl | rfl | rfl | rfl | rfl | rfl
  · obtain ⟨t, ht⟩ := isPref_head hp.1
    exact ⟨'d', t, ht, Or.inl rfl⟩
  · obtain ⟨t, ht⟩ := isPref_head hp.1
    exact ⟨'f', t, ht, Or.inr (Or.inl rfl)⟩
  · obtain ⟨t, ht⟩ := isPref_head hp.1
    exact ⟨'f', t, ht, Or.inr (Or.inl rfl)⟩
  · obtain ⟨t, ht⟩ := isPref_head hp.1
    exact ⟨'f', t, ht, Or.inr (Or.inl rfl)⟩
  · obtain ⟨t, ht⟩ := isPref_head hp.1
    exact ⟨'s', t, ht, Or.inr (Or.inr (Or.inl rfl))⟩
  · obtain ⟨t, ht⟩ := isPref_head hp.1
    exact ⟨'m', t, ht, Or.inr (Or.inr (Or.inr rfl))⟩

/-- A definition line is not dropped by the level-2 comment rule. -/
theorem defMatch_not_comment (l : Line) (h : defMatch l = true) :
    (commentLead (stripL l) && !importantKw (stripL l)) = false := by
  obtain ⟨c, t, hl, hc⟩ := defMatch_head l h
  have hstrip : stripL l = c :: rstrip t := by
    rw [stripL, hl]
    exact rstrip_cons_not_space t (by rcases hc with rfl | rfl | rfl | rfl <;> decide)
  rw [hstrip]
  rcases hc with rfl | rfl | rfl | rfl <;> simp [commentLead, isPref]

/-- A definition line is not dropped by the level-2 debug-statement rule. -/
theorem defMatch_not_debug (l : Line) (h : defMatch l = true) :
    debugMatch l = false := by
  obtain ⟨c, t, hl, hc⟩ := defMatch_head l h
  rw [debugMatch, hl]
  rcases hc with rfl | rfl | rfl | rfl <;> simp [dbgNames, isPref]

/-- C3 (amended): when the level-2 scan reaches a function-definition line,
a computed body span of more than 10 lines is replaced by the definition line
followed by exactly one summary line stating the span length, indented to the
definition's indentation plus 4, with `function_lines_compressed` increased by
span length − 1 and scanning resuming after the span; a span of at most 10
lines is kept verbatim. -/
theorem c3_level2_compaction (s : Stats) (d : Line) (rest : List Line)
    (hd : defMatch d = true) :
    (10 < (spanBody (indentOf d) rest).1.length →
      level2Run (d :: rest) s =
        (d :: summaryLine (indentOf d) (spanBody (indentOf d) rest).1.length ::
            (level2Run (spanBody (indentOf d) rest).2
              { s with function_lines_compressed :=
                  s.function_lines_compressed +
                    ((spanBody (indentOf d) rest).1.length - 1) }).1,
          (level2Run (spanBody (indentOf d) rest).2
            { s with function_lines_compressed :=
                s.function_lines_compressed +
                  ((spanBody (indentOf d) rest).1.length - 1) }).2)) ∧
    ((spanBody (indentOf d) rest).1.length ≤ 10 →
      level2Run (d :: rest) s =
        (d :: ((spanBody (indentOf d) rest).1 ++
            (level2Run (spanBody (indentOf d) rest).2 s).1),
          (level2Run (spanBody (indentOf d) rest).2 s).2)) := by
  have hcom := defMatch_not_comment d hd
  have hdbg := defMatch_not_debug d hd
  unfold level2Run
  constructor
  · intro hlen
    rw [List.length_cons, level2Go]
    rw [if_neg (by simp [hcom]), if_neg (by simp [hdbg]), if_pos hd]
    simp only []
    rw [if_pos hlen]
    rw [level2Go_fuel rest.length (spanBody (indentOf d) rest).2.length
      (spanBody (indentOf d) rest).2 _ (spanBody_r_length _ _) (le_refl _)]
  · intro hlen
    rw [List.length_cons, level2Go]
    rw [if_neg (by simp [hcom]), if_neg (by simp [hdbg]), if_pos hd]
    simp only []
    rw [if_neg (by omega)]
    rw [level2Go_fuel rest.length (spanBody (indentOf d) rest).2.length
      (spanBody (indentOf d) rest).2 _ (spanBody_r_length _ _) (le_refl _)]

/-- Fixture for C3's counterexample: a definition with a 14-line body. -/
def c3input : List Line := str "def f():" :: List.replicate 14 (str "    x = 1")

/-- C3 counterexample: the claim fails for levels above 3.  Level 2 does
replace the 14-line body with the single summary line, but at level 4 the
summary line (a `#` comment) is dropped again, so the level-4 output does not
retain any summary line, contradicting the claim for every `k ≥ 2`. -/
theorem c3_compaction_counterexample :
    (compress_file_content 2 c3input).1 = [str "def f():", summaryLine 0 14] ∧
      (compress_file_content 4 c3input).1 = [str "def f():"] ∧
      summaryLine 0 14 ∉ (compress_file_content 4 c3input).1 := by
  refine ⟨?_, ?_, ?_⟩ <;> decide

/-- The empty statistics record. -/
def s0 : Stats := {}

/-- Fixture definition line for C3's witness. -/
def c3d : Line := str "def g():"

/-- Fixture tail for C3's witness: a 14-line body followed by a top-level
line. -/
def c3rest : List Line := List.replicate 14 (str "    y = 2") ++ [str "z = 3"]

/-- Witness for C3 on a concrete 14-line function body. -/
theorem c3_level2_compaction_witness :
    level2Run (c3d :: c3rest) s0 =
      (c3d :: summaryLine (indentOf c3d) (spanBody (indentOf c3d) c3rest).1.length ::
          (level2Run (spanBody (indentOf c3d) c3rest).2
            { s0 with function_lines_compressed :=
                s0.function_lines_compressed +
                  ((spanBody (indentOf c3d) c3rest).1.length - 1) }).1,
        (level2Run (spanBody (indentOf c3d) c3rest).2
          { s0 with function_lines_compressed :=
              s0.function_lines_compressed +
                ((spanBody (indentOf c3d) c3rest).1.length - 1) }).2) :=
  (c3_level2_compaction s0 c3d c3rest (by decide)).1 (by decide)

/-- C4 counterexample: a file of category `"test"` is not transformed by the
compression engine at level 2 even though the engine would change its content
(the blank run would collapse), contradicting the claim that every included
file is compressed regardless of category. -/
theorem c4_category_counterexample :
    (processFiles 2 [⟨str "f.py", "test", str "x\n\n\ny"⟩] {}).1 =
        [(str "f.py", str "x\n\n\ny")] ∧
      joinLines (compress_file_content 2 (splitlines (str "x\n\n\ny"))).1 ≠
        str "x\n\n\ny" := by
  refine ⟨?_, ?_⟩ <;> decide

/-- C4 (amended): only files categorized `"source"` are transformed by the
compression engine at a positive level; files of any other category (test,
doc, config) are concatenated with their original content. -/
theorem c4_source_only (lvl : Nat) (fp : List Char) (cat : String)
    (content : List Char) (st : RunStats)
    (h : (stripL content).isEmpty = false) :
    (¬ cat = "source" →
      (processFiles lvl [⟨fp, cat, content⟩] st).1 = [(fp, content)]) ∧
    (cat = "source" → 0 < lvl →
      (processFiles lvl [⟨fp, cat, content⟩] st).1 =
        [(fp, joinLines (compress_file_content lvl (splitlines content)).1)]) := by
  constructor
  · intro hcat
    rw [processFiles]
    rw [if_neg (by simp [h])]
    simp only []
    have hcond : (decide (0 < lvl) && (cat == "source")) = false := by
      simp [hcat]
    rw [hcond]
    simp only [Bool.false_eq_true, if_false]
    rw [processFiles]
  · intro hcat hlvl
    rw [processFiles]
    rw [if_neg (by simp [h])]
    simp only []
    have hcond : (decide (0 < lvl) && (cat == "source")) = true := by
      simp [hcat, hlvl]
    rw [hcond]
    simp only [if_true]
    rw [processFiles]

/-- Witness for C4: a doc-category file passes through unchanged at level 3. -/
theorem c4_source_only_witness :
    (processFiles 3 [⟨str "README.md", "doc", str "x\n\n\ny"⟩] {}).1 =
      [(str "README.md", str "x\n\n\ny")] :=
  (c4_source_only 3 (str "README.md") "doc" (str "x\n\n\ny") {} (by decide)).1
    (by decide)

/-- C9: whenever some path segment is case-insensitively equal to a member of
the excluded-directory set, classification returns `(false, excluded)` — the
check precedes every include rule. -/
theorem c9_excluded_dir (filepath filename : List Char)
    (h : ∃ part ∈ splitPath filepath, lowerL part ∈ exclude_dirs.map lowerL) :
    should_include_file filepath filename = (false, "excluded") := by
  obtain ⟨part, hmem, hp⟩ := h
  unfold should_include_file
  have hc : (splitPath filepath).any
      (fun part => decide (lowerL part ∈ exclude_dirs.map lowerL)) = true :=
    List.any_eq_true.mpr ⟨part, hmem, decide_eq_true hp⟩
  rw [if_pos hc]

/-- Witness for C9: a `.js` file under `node_modules` is excluded although its
extension is in the source set. -/
theorem c9_excluded_dir_witness :
    should_include_file (str "node_modules/lib.js") (str "lib.js") =
      (false, "excluded") :=
  c9_excluded_dir (str "node_modules/lib.js") (str "lib.js")
    ⟨str "node_modules", by decide, by decide⟩

/-- C10: a queued file with whitespace-only content is skipped before any
counter moves, and a queue of only such files yields the empty document and
the fatal no-relevant-files outcome of `main`. -/
theorem c10_whitespace_skipped :
    (∀ (lvl : Nat) (f : QueuedFile) (rest : List QueuedFile) (st : RunStats),
        (stripL f.content).isEmpty = true →
        processFiles lvl (f :: rest) st = processFiles lvl rest st) ∧
    (∀ (lvl : Nat) (files : List QueuedFile) (st : RunStats),
        (∀ f ∈ files, (stripL f.content).isEmpty = true) →
        processFiles lvl files st = ([], st) ∧
          runOutcome (processFiles lvl files st).1 = RunOutcome.fatal) := by
  have hskip : ∀ (lvl : Nat) (f : QueuedFile) (rest : List QueuedFile) (st : RunStats),
      (stripL f.content).isEmpty = true →
      processFiles lvl (f :: rest) st = processFiles lvl rest st := by
    intro lvl f rest st hf
    rw [processFiles, if_pos hf]
  refine ⟨hskip, ?_⟩
  intro lvl files
  induction files with
  | nil =>
    intro st h
    constructor
    · rw [processFiles]
    · rw [processFiles]
      rfl
  | cons f t ih =>
    intro st h
    rw [hskip lvl f t st (h f (List.mem_cons_self f t))]
    exact ih st (fun g hg => h g (List.mem_cons_of_mem f hg))

/-- Witness for C10 on one whitespace-only source file. -/
theorem c10_whitespace_skipped_witness :
    processFiles 2 [⟨str "a.py", "source", str "  \t "⟩] {} =
        (([] : List (List Char × List Char)), ({} : RunStats)) ∧
      runOutcome (processFiles 2 [⟨str "a.py", "source", str "  \t "⟩] {}).1 =
        RunOutcome.fatal :=
  c10_whitespace_skipped.2 2 [⟨str "a.py", "source", str "  \t "⟩] {} (by decide)

/-- The reported ratio is `ratioF64` of the input length and the output
length (shared helper for the C7 artifacts). -/
theorem compress_ratio_spec (k : Nat) (lines : List Line) (hk : ¬ k = 0) :
    (compress_file_content k lines).2.compression_ratio =
      ratioF64 lines.length (compress_file_content k lines).1.length := by
  rw [compress_pos_spec k lines hk]
  rfl

set_option maxRecDepth 8192 in
/-- The 20-to-14 fixture ratio in binary64 (shared helper): the double nearest
`(1 - 14/20) * 100` is `8444249301319681·2^-48`, printed
`30.000000000000004`. -/
theorem ratioF64_fixture :
    ratioF64 20 14 = (8444249301319681 : ℚ) / 281474976710656 := by
  have hF : fmul (fsub (fofNat 1) (fdivNat 14 20)) (fofNat 100) =
      ((8444249301319681 : ℤ), (-48 : ℤ)) := by decide
  rw [ratioF64, if_pos (by norm_num), hF, toRatF]
  norm_num [show Int.toNat 48 = 48 from rfl]

/-- C7 counterexample: at the fixture with `original_lines = 20` and
`final_lines = 14` the program's IEEE arithmetic reports the double
`30.000000000000004`, so `compression_ratio` is not exactly 30. -/
theorem c7_ratio_counterexample :
    (compress_file_content 1 c7lines).2.original_lines = 20 ∧
      (compress_file_content 1 c7lines).2.final_lines = 14 ∧
      (compress_file_content 1 c7lines).2.compression_ratio ≠ 30 := by
  refine ⟨by decide, by decide, ?_⟩
  have h14 : (compress_file_content 1 c7lines).1.length = 14 := by decide
  have h20 : c7lines.length = 20 := by decide
  rw [compress_ratio_spec 1 c7lines (by omega), h14, h20, ratioF64_fixture]
  norm_num

/-- C7 (amended): for every level `k ≥ 1`, `compression_ratio` is the IEEE
binary64 evaluation of `(1 − final_lines/original_lines) × 100` over the
reported counts, and 0 when `original_lines = 0`; the run with
`original_lines = 20` and `final_lines = 14` reports the double
`8444249301319681·2^-48` (`30.000000000000004`), not exactly 30. -/
theorem c7_ratio_ieee (k : Nat) (lines : List Line) (hk : 1 ≤ k) :
    ((compress_file_content k lines).2.original_lines = 0 →
        (compress_file_content k lines).2.compression_ratio = 0) ∧
      ((compress_file_content k lines).2.compression_ratio =
        ratioF64 (compress_file_content k lines).2.original_lines
          (compress_file_content k lines).2.final_lines) ∧
      ((compress_file_content k lines).2.original_lines = 20 →
        (compress_file_content k lines).2.final_lines = 14 →
        (compress_file_content k lines).2.compression_ratio =
          (8444249301319681 : ℚ) / 281474976710656) := by
  have horig := compress_orig k lines
  have hfin := compress_final k lines (by omega)
  have hspec := compress_ratio_spec k lines (by omega)
  refine ⟨?_, ?_, ?_⟩
  · intro h0
    rw [horig] at h0
    rw [hspec, h0, ratioF64, if_neg (by omega)]
  · rw [hspec, horig, hfin]
  · intro h20 h14
    rw [horig] at h20
    rw [hfin] at h14
    rw [hspec, h14, h20, ratioF64_fixture]

/-- Witness for C7: the 20-line fixture compresses to 14 lines at level 1 and
reports the double `30.000000000000004`. -/
theorem c7_ratio_ieee_witness :
    (compress_file_content 1 c7lines).2.compression_ratio =
      (8444249301319681 : ℚ) / 281474976710656 :=
  (c7_ratio_ieee 1 c7lines (by decide)).2.2 (by decide) (by decide)

/-- C2 counterexample: the fallback token estimate of the code differs from
the spec's Improved procedure.  On `"abcdefgh"` (one 8-character alphanumeric
token, no punctuation, no whitespace) the code returns `max(1, int(1.0)) = 1`
while the spec's procedure yields `8 // 4 + 1 = 3`. -/
theorem c2_estimator_counterexample :
    estimate_tokens (str "abcdefgh") = 1 ∧
      specImprovedEstimate (str "abcdefgh") = 3 ∧
      estimate_tokens (str "abcdefgh") ≠ specImprovedEstimate (str "abcdefgh") := by
  refine ⟨?_, ?_, ?_⟩ <;> decide

set_option maxRecDepth 8192 in
/-- C2 (amended): when tiktoken is unavailable, the estimate is determined
solely by the counts `W` (word-character runs), `S` (characters neither word
nor whitespace) and `R` (whitespace runs), as
`max(1, int(W + 0.7·S + 0.3·R))` in IEEE binary64 arithmetic — e.g.
`W=1, S=3, R=3` (the text `"a ! ? ."`) gives `int(3.9999999999999996) = 3`
and `W=2, S=0, R=1` (`"Hello world"`) gives 2 — it is always at least 1, and
it does not follow the spec's Improved procedure. -/
theorem c2_fallback_ieee :
    (∀ t1 t2 : List Char, countWords t1 = countWords t2 →
        countSpecial t1 = countSpecial t2 → countWsRuns t1 = countWsRuns t2 →
        estimate_tokens t1 = estimate_tokens t2) ∧
      (∀ t : List Char, 1 ≤ estimate_tokens t) ∧
      estimate_tokens (str "a ! ? .") = 3 ∧
      estimate_tokens (str "Hello world") = 2 := by
  refine ⟨?_, ?_, ?_, ?_⟩
  · intro t1 t2 h1 h2 h3
    unfold estimate_tokens
    rw [h1, h2, h3]
  · intro t
    exact le_max_left 1 _
  · decide
  · decide

/-- Witness for C2's amended theorem: two texts with equal counts get equal
estimates. -/
theorem c2_fallback_ieee_witness :
    estimate_tokens (str "ab cd") = estimate_tokens (str "xy zw") :=
  c2_fallback_ieee.1 (str "ab cd") (str "xy zw") (by decide) (by decide) (by decide)

end LlmConsolidate
